import Mathlib

/-!
Shallow embedding of the Local-Network-Music-Player core:
the client playlist controller (useMusicPlayer hook) and the server
FileStorage metadata store, with theorems checking the specification's
claims against these definitions.
-/

/-- A track record, as in shared/schema.ts (Song). -/
structure Song where
  id : Int
  title : String
  artist : String
  duration : Int
  format : String
  path : String
  filename : String
deriving DecidableEq

/-- Repeat mode of the player hook: 'none' | 'all' | 'one'. -/
inductive RepeatMode where
  | none
  | all
  | one
deriving DecidableEq

/-- Commands the controller issues to the audio engine (audioPlayer). -/
inductive EngineCmd where
  | play
  | pause
  | stop
  | seek (pos : Rat)
deriving DecidableEq

/-- State of the useMusicPlayer hook: React state plus the refs. -/
structure PlayerState where
  songs : List Song
  shuffled : List Song
  currentSong : Option Song
  currentIndex : Int
  isPlaying : Bool
  isShuffle : Bool
  repeatMode : RepeatMode
  currentTime : Rat
  lastEnded : Option Rat
deriving DecidableEq

/-- `playlist.findIndex(s => s.id === t.id)`: first index whose id matches, else -1. -/
def findIndexId (t : Song) : List Song → Int
  | [] => -1
  | x :: xs =>
    if x.id = t.id then 0
    else
      let r := findIndexId t xs
      if r = -1 then -1 else r + 1

/-- Swap the elements at positions i and j of a list (no-op if out of range). -/
def listSwap (l : List Song) (i j : Nat) : List Song :=
  match l.get? i, l.get? j with
  | some a, some b => (l.set i b).set j a
  | _, _ => l

/-- The Fisher-Yates loop of updateShuffledPlaylist: iterate i from `n` down to 1,
swapping position i with a position j in [0, i] drawn from the oracle `cs`. -/
def fyAux : Nat → List Nat → List Song → List Song
  | 0, _, l => l
  | i + 1, cs, l => fyAux i cs.tail (listSwap l (i + 1) (cs.headD 0 % (i + 2)))

/-- Fisher-Yates shuffle of updateShuffledPlaylist, with the random draws
supplied by the oracle `cs` (each draw reduced into its legal range). -/
def fisherYates (l : List Song) (cs : List Nat) : List Song :=
  fyAux (l.length - 1) cs l

/-- getCurrentPlaylist: the shuffled order if shuffle is on, else the base order. -/
def getCurrentPlaylist (s : PlayerState) : List Song :=
  if s.isShuffle then s.shuffled else s.songs

/-- The useEffect on `songs`: replace the base list, reshuffle, and relocate
or reset the current song and index. -/
def replaceSongs (l : List Song) (cs : List Nat) (s : PlayerState) : PlayerState :=
  match s.currentSong with
  | Option.none => { s with songs := l, shuffled := fisherYates l cs }
  | Option.some t =>
    if findIndexId t l = -1 then
      match l with
      | x :: _ => { s with songs := l, shuffled := fisherYates l cs,
                           currentSong := some x, currentIndex := 0, isPlaying := false }
      | [] => { s with songs := l, shuffled := fisherYates l cs,
                       currentSong := Option.none, currentIndex := -1, isPlaying := false }
    else { s with songs := l, shuffled := fisherYates l cs,
                  currentIndex := findIndexId t l }

/-- playSong: locate the song in the active sequence by id; if found, make it
current and start playing. -/
def playSong (t : Song) (s : PlayerState) : PlayerState :=
  if findIndexId t (getCurrentPlaylist s) = -1 then s
  else { s with currentIndex := findIndexId t (getCurrentPlaylist s),
                currentSong := some t, isPlaying := true }

/-- togglePlay: with no current song and a non-empty base list, start at index 0
of the active sequence; otherwise flip isPlaying. -/
def togglePlay (s : PlayerState) : PlayerState :=
  match s.currentSong with
  | Option.none =>
    if 0 < s.songs.length then
      { s with currentIndex := 0, currentSong := (getCurrentPlaylist s).get? 0,
               isPlaying := true }
    else s
  | Option.some _ => { s with isPlaying := !s.isPlaying }

/-- The nextIndex local of playNext: wrap to 0 past the end of the active list. -/
def nextIdx (s : PlayerState) : Int :=
  if ((getCurrentPlaylist s).length : Int) ≤ s.currentIndex + 1 then 0
  else s.currentIndex + 1

/-- playNext: advance in the active sequence, wrapping to 0 at the end;
no-op when the base list is empty or the index check fails. -/
def playNext (s : PlayerState) : PlayerState :=
  if s.songs.length = 0 then s
  else
    if nextIdx s < 0 ∨ ((getCurrentPlaylist s).length : Int) ≤ nextIdx s then s
    else
      match (getCurrentPlaylist s).get? (nextIdx s).toNat with
      | some x => { s with currentIndex := nextIdx s, currentSong := some x, isPlaying := true }
      | Option.none => s

/-- The prevIndex local of playPrevious: wrap to the last position when
stepping back from the front. -/
def prevIdx (s : PlayerState) : Int :=
  if s.currentIndex - 1 < 0 then ((getCurrentPlaylist s).length : Int) - 1
  else s.currentIndex - 1

/-- playPrevious, also reporting the engine commands it issues: restart the
track when more than 3 seconds in, otherwise step back with wraparound. -/
def playPreviousFull (s : PlayerState) : PlayerState × List EngineCmd :=
  if s.songs.length = 0 then (s, [])
  else if 3 < s.currentTime then (s, [EngineCmd.seek 0])
  else
    if prevIdx s < 0 ∨ ((getCurrentPlaylist s).length : Int) ≤ prevIdx s then (s, [])
    else
      match (getCurrentPlaylist s).get? (prevIdx s).toNat with
      | some x =>
        ({ s with currentIndex := prevIdx s, currentSong := some x, isPlaying := true }, [])
      | Option.none => (s, [])

/-- toggleShuffle: flip the flag; turning on reshuffles and relocates the index
in the new shuffled order, turning off relocates it in the base order. -/
def toggleShuffle (cs : List Nat) (s : PlayerState) : PlayerState :=
  if s.isShuffle = false then
    match s.currentSong with
    | some t =>
      { s with isShuffle := !s.isShuffle, shuffled := fisherYates s.songs cs,
               currentIndex := findIndexId t (fisherYates s.songs cs) }
    | Option.none => { s with isShuffle := !s.isShuffle, shuffled := fisherYates s.songs cs }
  else
    match s.currentSong with
    | some t => { s with isShuffle := !s.isShuffle, currentIndex := findIndexId t s.songs }
    | Option.none => { s with isShuffle := !s.isShuffle }

/-- toggleRepeat: cycle none → all → one → none. -/
def toggleRepeat (s : PlayerState) : PlayerState :=
  { s with repeatMode :=
      match s.repeatMode with
      | RepeatMode.none => RepeatMode.all
      | RepeatMode.all => RepeatMode.one
      | RepeatMode.one => RepeatMode.none }

/-- The debounce test of handleSongEnd: a previously handled end exists
(truthy timestamp) and lies within 1000 ms of `now`. -/
def endDebounced (now : Rat) (s : PlayerState) : Bool :=
  match s.lastEnded with
  | some l => l != 0 && decide (now - l < 1000)
  | Option.none => false

/-- The body of handleSongEnd once the debounce passed: stamp the time, then
repeat the current track (repeat one) or advance. -/
def handleSongEndGo (now : Rat) (s : PlayerState) : PlayerState × List EngineCmd :=
  if s.repeatMode = RepeatMode.one then
    ({ s with lastEnded := some now }, [EngineCmd.seek 0, EngineCmd.play])
  else (playNext { s with lastEnded := some now }, [])

/-- handleSongEnd: ignore ends arriving within 1 s of the last handled one. -/
def handleSongEndFull (now : Rat) (s : PlayerState) : PlayerState × List EngineCmd :=
  if endDebounced now s then (s, []) else handleSongEndGo now s

/-- The transitions of the controller quoted by the spec. Shuffle-consuming
transitions carry the random oracle; track-ended carries the clock reading. -/
inductive PAction where
  | replaceList (l : List Song) (cs : List Nat)
  | play (t : Song)
  | toggle
  | next
  | previous
  | shuffle (cs : List Nat)
  | repeatCycle
  | ended (now : Rat)

/-- One controller transition. -/
def step (s : PlayerState) : PAction → PlayerState
  | PAction.replaceList l cs => replaceSongs l cs s
  | PAction.play t => playSong t s
  | PAction.toggle => togglePlay s
  | PAction.next => playNext s
  | PAction.previous => (playPreviousFull s).1
  | PAction.shuffle cs => toggleShuffle cs s
  | PAction.repeatCycle => toggleRepeat s
  | PAction.ended now => (handleSongEndFull now s).1

/-- The hook's starting state: empty refs, no song, index -1. -/
def startState : PlayerState :=
  { songs := [], shuffled := [], currentSong := Option.none, currentIndex := -1,
    isPlaying := false, isShuffle := false, repeatMode := RepeatMode.none,
    currentTime := 0, lastEnded := Option.none }

/-- The state reached from the hook's starting state by a list of transitions. -/
def runActions (acts : List PAction) : PlayerState :=
  acts.foldl step startState

/-- N consecutive playNext calls. -/
def playNextIter : Nat → PlayerState → PlayerState
  | 0, s => s
  | n + 1, s => playNextIter n (playNext s)

/-- The draft accepted by createSong (InsertSong of shared/schema.ts):
artist and duration optional. -/
structure InsertSong where
  title : String
  artist : Option String
  duration : Option Int
  format : String
  path : String
  filename : String
deriving DecidableEq

/-- JavaScript `a || d` on an optional string: the empty string is falsy. -/
def jsOrStr : Option String → String → String
  | some s, d => if s = "" then d else s
  | Option.none, d => d

/-- The FileStorage state: the Map of songs (insertion-ordered association
list) and the id counter. -/
structure Store where
  songs : List (Int × Song)
  currentId : Int
deriving DecidableEq

/-- Map.get. -/
def mapGet (m : List (Int × Song)) (k : Int) : Option Song :=
  match m.find? (fun p => p.1 == k) with
  | some p => some p.2
  | Option.none => Option.none

/-- Map.set: update in place when the key exists, else append. -/
def mapSet (m : List (Int × Song)) (k : Int) (v : Song) : List (Int × Song) :=
  if m.any (fun p => p.1 == k) then
    m.map (fun p => if p.1 == k then (k, v) else p)
  else m ++ [(k, v)]

/-- Map.delete (key removal part). -/
def mapDelete (m : List (Int × Song)) (k : Int) : List (Int × Song) :=
  m.filter (fun p => p.1 != k)

/-- The JSON sidecar contents written by saveMetadata. -/
structure Sidecar where
  songs : List Song
  nextId : Int
deriving DecidableEq

/-- FileStorage.saveMetadata: serialize the Map values plus the counter. -/
def saveMetadata (st : Store) : Sidecar :=
  { songs := st.songs.map Prod.snd, nextId := st.currentId }

/-- FileStorage.loadSavedMetadata: rebuild the Map from the sidecar, keeping
only records whose backing file still exists, and take the counter from the
persisted nextId. -/
def loadSavedMetadata (sc : Sidecar) (fileset : List String) : Store :=
  { songs := sc.songs.foldl
      (fun m s => if s.path ∈ fileset then mapSet m s.id s else m) [],
    currentId := sc.nextId }

/-- FileStorage.createSong: allocate the next id, fill defaults, store. -/
def createSong (d : InsertSong) (st : Store) : Song × Store :=
  let id := st.currentId
  let song : Song :=
    { id := id, title := d.title, artist := jsOrStr d.artist "Unknown",
      duration := d.duration.getD 0, format := d.format, path := d.path,
      filename := d.filename }
  (song, { songs := mapSet st.songs id song, currentId := st.currentId + 1 })

/-- FileStorage.renameSong: NotFound on an absent id, else update title and
(via `input.artist || song.artist`) artist in place. -/
def renameSong (id : Int) (title : String) (artist : Option String)
    (st : Store) : Option Song × Store :=
  match mapGet st.songs id with
  | Option.none => (Option.none, st)
  | some song =>
    let updated := { song with title := title, artist := jsOrStr artist song.artist }
    (some updated, { st with songs := mapSet st.songs id updated })

/-- FileStorage.deleteSong: false on an absent id; else unlink the backing
file when it exists, remove the record, and report Map.delete's result. -/
def deleteSong (id : Int) (st : Store) (fileset : List String) :
    Bool × Store × List String :=
  match mapGet st.songs id with
  | Option.none => (false, st, fileset)
  | some song =>
    let fileset' := if song.path ∈ fileset then fileset.erase song.path else fileset
    (st.songs.any (fun p => p.1 == id),
     { st with songs := mapDelete st.songs id }, fileset')

/-- The server world: the live store, the files on disk, and the sidecar
contents (none before the first write). -/
structure World where
  store : Store
  files : List String
  sidecar : Option Sidecar
deriving DecidableEq

/-- Add an uploaded file's path to the file set. -/
def insertFile (p : String) (fileset : List String) : List String :=
  if p ∈ fileset then fileset else fileset ++ [p]

/-- The store operations of the spec; reload models a process restart that
re-reads the sidecar. -/
inductive StoreOp where
  | create (d : InsertSong)
  | rename (id : Int) (title : String) (artist : Option String)
  | delete (id : Int)
  | reload

/-- A store as freshly constructed (empty Map, counter 1). -/
def freshStore : Store := { songs := [], currentId := 1 }

/-- Upload plus createSong: store the record, write the file, rewrite the
sidecar, return the new id. -/
def applyCreate (w : World) (d : InsertSong) : World × Option Int :=
  ({ store := (createSong d w.store).2, files := insertFile d.path w.files,
     sidecar := some (saveMetadata (createSong d w.store).2) },
   some (createSong d w.store).1.id)

/-- renameSong at the world level: the sidecar is rewritten on success only. -/
def applyRename (w : World) (id : Int) (t : String) (a : Option String) :
    World × Option Int :=
  match (renameSong id t a w.store).1 with
  | some _ =>
    ({ w with store := (renameSong id t a w.store).2,
              sidecar := some (saveMetadata (renameSong id t a w.store).2) },
     Option.none)
  | Option.none => (w, Option.none)

/-- deleteSong at the world level: the sidecar is rewritten on success only. -/
def applyDelete (w : World) (id : Int) : World × Option Int :=
  if (deleteSong id w.store w.files).1 then
    ({ store := (deleteSong id w.store w.files).2.1,
       files := (deleteSong id w.store w.files).2.2,
       sidecar := some (saveMetadata (deleteSong id w.store w.files).2.1) },
     Option.none)
  else (w, Option.none)

/-- A process restart: a fresh FileStorage re-reads the sidecar if present. -/
def applyReload (w : World) : World × Option Int :=
  ({ w with store :=
      match w.sidecar with
      | some sc => loadSavedMetadata sc w.files
      | Option.none => freshStore }, Option.none)

/-- Apply one store operation to the world; returns the created id, if any. -/
def applyOp (w : World) : StoreOp → World × Option Int
  | StoreOp.create d => applyCreate w d
  | StoreOp.rename id t a => applyRename w id t a
  | StoreOp.delete id => applyDelete w id
  | StoreOp.reload => applyReload w

/-- Run a list of store operations, collecting the ids issued by create. -/
def runW : World → List StoreOp → World × List Int
  | w, [] => (w, [])
  | w, op :: ops =>
    ((runW (applyOp w op).1 ops).1,
     (match (applyOp w op).2 with
      | some i => [i]
      | Option.none => []) ++ (runW (applyOp w op).1 ops).2)

/-- The world at first startup: fresh store, no files, no sidecar. -/
def world0 : World := { store := freshStore, files := [], sidecar := Option.none }

theorem findIndexId_spec (t : Song) (l : List Song) :
    findIndexId t l = -1 ∨
    (0 ≤ findIndexId t l ∧ findIndexId t l < l.length ∧
      ∃ u, l.get? (findIndexId t l).toNat = some u ∧ u.id = t.id) := by
  induction l with
  | nil => exact Or.inl rfl
  | cons x xs ih =>
    by_cases hx : x.id = t.id
    · refine Or.inr ?_
      simp only [findIndexId, hx, if_pos]
      refine ⟨le_refl 0, by simp, x, ?_, hx⟩
      simp
    · rcases ih with h1 | h2
      · refine Or.inl ?_
        simp [findIndexId, hx, h1]
      · refine Or.inr ?_
        obtain ⟨hge, hlt, u, hu, hid⟩ := h2
        have hne : findIndexId t xs ≠ -1 := by omega
        simp only [findIndexId, if_neg hx, if_neg hne]
        refine ⟨by omega, by simp; omega, u, ?_, hid⟩
        have h2' : (findIndexId t xs + 1).toNat = (findIndexId t xs).toNat + 1 := by omega
        rw [h2', List.get?_cons_succ]
        exact hu

theorem findIndexId_ge (t : Song) (l : List Song) : -1 ≤ findIndexId t l := by
  rcases findIndexId_spec t l with h | h
  · omega
  · omega

theorem listSwap_length (l : List Song) (i j : Nat) :
    (listSwap l i j).length = l.length := by
  unfold listSwap
  split
  · simp
  · rfl

theorem fyAux_length (n : Nat) : ∀ (cs : List Nat) (l : List Song),
    (fyAux n cs l).length = l.length := by
  induction n with
  | zero => intro cs l; rfl
  | succ m ih =>
    intro cs l
    simp only [fyAux]
    rw [ih, listSwap_length]

theorem fisherYates_length (l : List Song) (cs : List Nat) :
    (fisherYates l cs).length = l.length := by
  unfold fisherYates
  exact fyAux_length _ _ _

theorem songs_ne_nil_of_pl (s : PlayerState)
    (h3 : s.shuffled.length = s.songs.length)
    (h : getCurrentPlaylist s ≠ []) : s.songs ≠ [] := by
  intro hnil
  apply h
  unfold getCurrentPlaylist
  split
  · have : s.shuffled.length = 0 := by rw [h3, hnil]; rfl
    exact List.eq_nil_of_length_eq_zero this
  · exact hnil

theorem playNext_eq (s : PlayerState) :
    playNext s = s ∨
    ∃ (k : Int) (x : Song), 0 ≤ k ∧ k < (getCurrentPlaylist s).length ∧
      (getCurrentPlaylist s).get? k.toNat = some x ∧ s.songs ≠ [] ∧
      playNext s = { s with currentIndex := k, currentSong := some x, isPlaying := true } := by
  unfold playNext
  split
  next => exact Or.inl rfl
  next h0 =>
    split
    next => exact Or.inl rfl
    next hbad =>
      push_neg at hbad
      split
      next x hx =>
        exact Or.inr ⟨nextIdx s, x, hbad.1, hbad.2, hx,
          fun hnil => h0 (by simp [hnil]), rfl⟩
      next => exact Or.inl rfl

theorem playPreviousFull_eq (s : PlayerState) :
    (playPreviousFull s).1 = s ∨
    ∃ (k : Int) (x : Song), 0 ≤ k ∧ k < (getCurrentPlaylist s).length ∧
      (getCurrentPlaylist s).get? k.toNat = some x ∧ s.songs ≠ [] ∧
      (playPreviousFull s).1 =
        { s with currentIndex := k, currentSong := some x, isPlaying := true } := by
  unfold playPreviousFull
  split
  next => exact Or.inl rfl
  next h0 =>
    split
    next => exact Or.inl rfl
    next =>
      split
      next => exact Or.inl rfl
      next hbad =>
        push_neg at hbad
        split
        next x hx =>
          exact Or.inr ⟨prevIdx s, x, hbad.1, hbad.2, hx,
            fun hnil => h0 (by simp [hnil]), rfl⟩
        next => exact Or.inl rfl

/-- The index part of the controller invariant that the code maintains:
with shuffle off, a non-negative index points at a base-list entry with the
current track's id. -/
def IdxOk (s : PlayerState) : Prop :=
  s.isShuffle = false → 0 ≤ s.currentIndex →
    ∃ t u, s.currentSong = some t ∧
      s.songs.get? s.currentIndex.toNat = some u ∧ u.id = t.id

/-- The inductive invariant of the controller. -/
def CtrlInv (s : PlayerState) : Prop :=
  (s.currentSong = Option.none → s.currentIndex = -1) ∧
  (s.songs = [] → s.currentSong = Option.none) ∧
  s.shuffled.length = s.songs.length ∧
  IdxOk s

theorem inv_startState : CtrlInv startState := by
  refine ⟨fun _ => rfl, fun _ => rfl, rfl, ?_⟩
  intro _ h
  exact absurd h (by decide)

theorem inv_playNext (s : PlayerState) (h : CtrlInv s) : CtrlInv (playNext s) := by
  obtain ⟨h1, h2, h3, h4⟩ := h
  rcases playNext_eq s with he | ⟨k, x, hk0, hklt, hx, hnn, he⟩
  · rw [he]; exact ⟨h1, h2, h3, h4⟩
  · rw [he]
    refine ⟨fun hc => by simp at hc, fun hc => absurd hc hnn, h3, ?_⟩
    intro hsh hge
    refine ⟨x, x, rfl, ?_, rfl⟩
    rw [getCurrentPlaylist, hsh] at hx
    simpa using hx

theorem inv_playPrevious (s : PlayerState) (h : CtrlInv s) : CtrlInv (playPreviousFull s).1 := by
  obtain ⟨h1, h2, h3, h4⟩ := h
  rcases playPreviousFull_eq s with he | ⟨k, x, hk0, hklt, hx, hnn, he⟩
  · rw [he]; exact ⟨h1, h2, h3, h4⟩
  · rw [he]
    refine ⟨fun hc => by simp at hc, fun hc => absurd hc hnn, h3, ?_⟩
    intro hsh hge
    refine ⟨x, x, rfl, ?_, rfl⟩
    rw [getCurrentPlaylist, hsh] at hx
    simpa using hx

theorem pl_off (s : PlayerState) (h : s.isShuffle = false) :
    getCurrentPlaylist s = s.songs := by
  simp [getCurrentPlaylist, h]

theorem inv_playSong (t : Song) (s : PlayerState) (h : CtrlInv s) : CtrlInv (playSong t s) := by
  obtain ⟨h1, h2, h3, h4⟩ := h
  unfold playSong
  split
  next => exact ⟨h1, h2, h3, h4⟩
  next hne =>
    rcases findIndexId_spec t (getCurrentPlaylist s) with hfi | ⟨hge, hlt, u, hu, hid⟩
    · exact absurd hfi hne
    · have hnn : s.songs ≠ [] := by
        refine songs_ne_nil_of_pl s h3 ?_
        intro hpl
        rw [hpl] at hne
        exact hne rfl
      simp only [CtrlInv, IdxOk]
      refine ⟨?_, ?_, h3, ?_⟩
      · intro hc; cases hc
      · intro hnil; exact absurd hnil hnn
      · intro hsh hge2
        rw [pl_off s hsh] at hu
        rw [pl_off s hsh]
        exact ⟨t, u, rfl, hu, hid⟩

theorem inv_togglePlay (s : PlayerState) (h : CtrlInv s) : CtrlInv (togglePlay s) := by
  obtain ⟨h1, h2, h3, h4⟩ := h
  unfold togglePlay
  cases hcs : s.currentSong with
  | none =>
    by_cases hlen : 0 < s.songs.length
    · have hpos : 0 < (getCurrentPlaylist s).length := by
        rw [getCurrentPlaylist]
        split
        · omega
        · exact hlen
      obtain ⟨x, hx⟩ : ∃ x, (getCurrentPlaylist s).get? 0 = some x :=
        ⟨_, List.get?_eq_get hpos⟩
      simp only [CtrlInv, IdxOk, if_pos hlen]
      refine ⟨?_, ?_, h3, ?_⟩
      · intro hc
        rw [hx] at hc
        cases hc
      · intro hnil
        rw [hnil] at hlen
        simp at hlen
      · intro hsh hge
        rw [pl_off s hsh] at hx
        rw [pl_off s hsh]
        exact ⟨x, x, hx, hx, rfl⟩
    · simp only [CtrlInv, IdxOk, if_neg hlen]
      exact ⟨h1, h2, h3, h4⟩
  | some t =>
    simp only [CtrlInv, IdxOk]
    refine ⟨?_, ?_, h3, ?_⟩
    · intro hc; cases hc
    · intro hnil
      rw [h2 hnil] at hcs
      cases hcs
    · intro hsh hge
      obtain ⟨t2, u, hcs2, hu, hid⟩ := h4 hsh hge
      rw [hcs] at hcs2
      exact ⟨t2, u, hcs2, hu, hid⟩

theorem inv_replaceSongs (l : List Song) (cs : List Nat) (s : PlayerState)
    (h : CtrlInv s) : CtrlInv (replaceSongs l cs s) := by
  obtain ⟨h1, h2, h3, h4⟩ := h
  unfold replaceSongs
  split
  next hcs =>
    have hidx := h1 hcs
    refine ⟨fun _ => hidx, fun _ => hcs, fisherYates_length l cs, ?_⟩
    intro _ hge
    exact absurd (le_trans hge (le_of_eq hidx)) (by decide)
  next t hcs =>
    split
    next hm1 =>
      split
      next x xs =>
        refine ⟨fun hc => by simp at hc, fun hnil => by simp at hnil,
          fisherYates_length _ cs, ?_⟩
        intro _ _
        exact ⟨x, x, rfl, rfl, rfl⟩
      next =>
        refine ⟨fun _ => rfl, fun _ => rfl, fisherYates_length [] cs, ?_⟩
        intro _ hge
        exact absurd (show (0 : Int) ≤ -1 from hge) (by decide)
    next hm1 =>
      rcases findIndexId_spec t l with hfi | ⟨hge, hlt, u, hu, hid⟩
      · exact absurd hfi hm1
      · refine ⟨fun hc => by simp [hcs] at hc, ?_, fisherYates_length l cs, ?_⟩
        · intro hnil
          subst hnil
          exact absurd rfl hm1
        · intro _ _
          exact ⟨t, u, hcs, hu, hid⟩

theorem inv_toggleShuffle (cs : List Nat) (s : PlayerState) (h : CtrlInv s) :
    CtrlInv (toggleShuffle cs s) := by
  obtain ⟨h1, h2, h3, h4⟩ := h
  unfold toggleShuffle
  split
  next hsh =>
    split
    next t hcs =>
      refine ⟨fun hc => by simp [hcs] at hc, ?_, fisherYates_length s.songs cs, ?_⟩
      · intro hnil
        rw [h2 hnil] at hcs
        cases hcs
      · intro hoff _
        exfalso
        simp [hsh] at hoff
    next hcs =>
      have hidx := h1 hcs
      refine ⟨fun _ => hidx, fun _ => hcs, fisherYates_length s.songs cs, ?_⟩
      intro hoff _
      exfalso
      simp [hsh] at hoff
  next hsh =>
    split
    next t hcs =>
      refine ⟨fun hc => by simp [hcs] at hc, ?_, h3, ?_⟩
      · intro hnil
        rw [h2 hnil] at hcs
        cases hcs
      · intro _ hge
        rcases findIndexId_spec t s.songs with hfi | ⟨hge2, hlt, u, hu, hid⟩
        · exact absurd (le_trans hge (le_of_eq hfi)) (by decide)
        · exact ⟨t, u, hcs, hu, hid⟩
    next hcs =>
      have hidx := h1 hcs
      refine ⟨fun _ => hidx, fun _ => hcs, h3, ?_⟩
      intro _ hge
      exact absurd (le_trans hge (le_of_eq hidx)) (by decide)

theorem inv_toggleRepeat (s : PlayerState) (h : CtrlInv s) : CtrlInv (toggleRepeat s) := by
  obtain ⟨h1, h2, h3, h4⟩ := h
  exact ⟨fun hc => h1 hc, fun hnil => h2 hnil, h3, fun hsh hge => h4 hsh hge⟩

theorem inv_handleSongEnd (now : Rat) (s : PlayerState) (h : CtrlInv s) :
    CtrlInv (handleSongEndFull now s).1 := by
  obtain ⟨h1, h2, h3, h4⟩ := h
  unfold handleSongEndFull
  split
  next => exact ⟨h1, h2, h3, h4⟩
  next =>
    unfold handleSongEndGo
    split
    next =>
      exact ⟨fun hc => h1 hc, fun hnil => h2 hnil, h3, fun hsh hge => h4 hsh hge⟩
    next =>
      refine inv_playNext _ ?_
      exact ⟨fun hc => h1 hc, fun hnil => h2 hnil, h3, fun hsh hge => h4 hsh hge⟩

theorem inv_step (s : PlayerState) (a : PAction) (h : CtrlInv s) : CtrlInv (step s a) := by
  cases a with
  | replaceList l cs => exact inv_replaceSongs l cs s h
  | play t => exact inv_playSong t s h
  | toggle => exact inv_togglePlay s h
  | next => exact inv_playNext s h
  | previous => exact inv_playPrevious s h
  | shuffle cs => exact inv_toggleShuffle cs s h
  | repeatCycle => exact inv_toggleRepeat s h
  | ended now => exact inv_handleSongEnd now s h

theorem inv_foldl (acts : List PAction) : ∀ (s : PlayerState), CtrlInv s →
    CtrlInv (acts.foldl step s) := by
  induction acts with
  | nil => intro s h; exact h
  | cons a rest ih =>
    intro s h
    exact ih (step s a) (inv_step s a h)

theorem inv_runActions (acts : List PAction) : CtrlInv (runActions acts) :=
  inv_foldl acts startState inv_startState

/-- Concrete tracks used in counterexamples and witnesses. -/
def songA : Song :=
  { id := 1, title := "A", artist := "artA", duration := 100, format := "mp3",
    path := "/u/a.mp3", filename := "a.mp3" }

def songB : Song :=
  { id := 2, title := "B", artist := "artB", duration := 120, format := "mp3",
    path := "/u/b.mp3", filename := "b.mp3" }

def songC : Song :=
  { id := 3, title := "C", artist := "artC", duration := 90, format := "wav",
    path := "/u/c.mp3", filename := "c.mp3" }

/-- songA after a rename: same id, new title. -/
def songA2 : Song :=
  { id := 1, title := "A renamed", artist := "artA", duration := 100, format := "mp3",
    path := "/u/a.mp3", filename := "a.mp3" }

/-- Trace: load [A,B], play A, shuffle on (order [B,A]), then the base list
is replaced by [A,B,C] with fresh shuffle order [B,C,A]. -/
def c1trace1 : List PAction :=
  [PAction.replaceList [songA, songB] [0], PAction.play songA,
   PAction.shuffle [0], PAction.replaceList [songA, songB, songC] [0, 0]]

/-- Trace: load [A], play A, then the base list is refreshed with the renamed
record (same id, new title), as after a rename round-trip. -/
def c1trace2 : List PAction :=
  [PAction.replaceList [songA] [], PAction.play songA,
   PAction.replaceList [songA2] []]

/-- C1 counterexample: two reachable controller states violate the claimed
invariant. After c1trace1 (shuffle on, base-list replacement) the active
sequence at currentIndex is B while currentTrack is A; after c1trace2
(shuffle off, rename refresh) the entry at currentIndex is the renamed
record, not the stale currentTrack object. -/
theorem C1_counterexample :
    (0 ≤ (runActions c1trace1).currentIndex ∧
      (getCurrentPlaylist (runActions c1trace1)).get?
          (runActions c1trace1).currentIndex.toNat ≠
        (runActions c1trace1).currentSong) ∧
    ((runActions c1trace2).isShuffle = false ∧
      0 ≤ (runActions c1trace2).currentIndex ∧
      (getCurrentPlaylist (runActions c1trace2)).get?
          (runActions c1trace2).currentIndex.toNat ≠
        (runActions c1trace2).currentSong) := by
  decide

/-- C1 (amended): in every state reachable by the listed transitions, when
shuffle is off and currentIndex is non-negative, the base-order entry at
currentIndex has the same id as currentTrack (the record object itself may be
stale after a rename); and whenever the base list is empty, currentTrack is
null and currentIndex is -1. With shuffle on the index may disagree with the
active (shuffled) sequence, since base-list replacement relocates the index
in the base order. -/
theorem C1_amended_invariant (acts : List PAction) :
    ((runActions acts).isShuffle = false → 0 ≤ (runActions acts).currentIndex →
      ∃ t u, (runActions acts).currentSong = some t ∧
        (runActions acts).songs.get? (runActions acts).currentIndex.toNat = some u ∧
        u.id = t.id) ∧
    ((runActions acts).songs = [] → (runActions acts).currentSong = Option.none ∧
      (runActions acts).currentIndex = -1) := by
  obtain ⟨h1, h2, h3, h4⟩ := inv_runActions acts
  exact ⟨fun hsh hge => h4 hsh hge, fun hnil => ⟨h2 hnil, h1 (h2 hnil)⟩⟩

/-- Witness for C1 (amended) at a concrete trace. -/
theorem C1_amended_witness :
    ∃ t u,
      (runActions [PAction.replaceList [songA] [], PAction.play songA]).currentSong = some t ∧
      (runActions [PAction.replaceList [songA] [], PAction.play songA]).songs.get?
        (runActions [PAction.replaceList [songA] [], PAction.play songA]).currentIndex.toNat
          = some u ∧
      u.id = t.id :=
  (C1_amended_invariant [PAction.replaceList [songA] [], PAction.play songA]).1
    (by decide) (by decide)

theorem nextIdx_mod (s : PlayerState) (hge : 0 ≤ s.currentIndex)
    (hlt : s.currentIndex < ((getCurrentPlaylist s).length : Int)) :
    nextIdx s = (s.currentIndex + 1) % ((getCurrentPlaylist s).length : Int) := by
  unfold nextIdx
  split
  next h =>
    have hEq : s.currentIndex + 1 = ((getCurrentPlaylist s).length : Int) := by omega
    rw [hEq, Int.emod_self]
  next h =>
    rw [Int.emod_eq_of_lt (by omega) (by omega)]

theorem playNext_step (s : PlayerState)
    (hlen : s.shuffled.length = s.songs.length)
    (hge : 0 ≤ s.currentIndex)
    (hlt : s.currentIndex < ((getCurrentPlaylist s).length : Int)) :
    playNext s = { s with currentIndex := nextIdx s,
                          currentSong := (getCurrentPlaylist s).get? (nextIdx s).toNat,
                          isPlaying := true } := by
  have hL : 0 < (getCurrentPlaylist s).length := by omega
  have hs0 : ¬ s.songs.length = 0 := by
    rw [getCurrentPlaylist] at hL
    by_cases hsh : s.isShuffle
    · rw [if_pos hsh] at hL; omega
    · rw [if_neg hsh] at hL; omega
  have hnx0 : 0 ≤ nextIdx s := by
    unfold nextIdx; split <;> omega
  have hnxL : nextIdx s < ((getCurrentPlaylist s).length : Int) := by
    unfold nextIdx; split <;> omega
  have hbound : (nextIdx s).toNat < (getCurrentPlaylist s).length := by omega
  have hx := List.get?_eq_get hbound
  unfold playNext
  rw [if_neg hs0]
  rw [if_neg (show ¬(nextIdx s < 0 ∨
      ((getCurrentPlaylist s).length : Int) ≤ nextIdx s) by push_neg; exact ⟨hnx0, hnxL⟩)]
  rw [hx]

theorem playNext_frame (s : PlayerState) :
    (playNext s).songs = s.songs ∧ (playNext s).shuffled = s.shuffled ∧
    (playNext s).isShuffle = s.isShuffle := by
  rcases playNext_eq s with he | ⟨k, x, _, _, _, _, he⟩ <;> rw [he] <;> exact ⟨rfl, rfl, rfl⟩

theorem getCurrentPlaylist_playNext (s : PlayerState) :
    getCurrentPlaylist (playNext s) = getCurrentPlaylist s := by
  obtain ⟨ha, hb, hc⟩ := playNext_frame s
  unfold getCurrentPlaylist
  rw [ha, hb, hc]

theorem playNextIter_spec (k : Nat) : ∀ (s : PlayerState),
    s.shuffled.length = s.songs.length →
    0 ≤ s.currentIndex →
    s.currentIndex < ((getCurrentPlaylist s).length : Int) →
    s.currentSong = (getCurrentPlaylist s).get? s.currentIndex.toNat →
    getCurrentPlaylist (playNextIter k s) = getCurrentPlaylist s ∧
    (playNextIter k s).shuffled.length = (playNextIter k s).songs.length ∧
    (playNextIter k s).currentIndex =
      (s.currentIndex + (k : Int)) % ((getCurrentPlaylist s).length : Int) ∧
    (playNextIter k s).currentSong =
      (getCurrentPlaylist s).get?
        ((s.currentIndex + (k : Int)) % ((getCurrentPlaylist s).length : Int)).toNat := by
  induction k with
  | zero =>
    intro s h3 hge hlt hsong
    refine ⟨rfl, h3, ?_, ?_⟩
    · show s.currentIndex = (s.currentIndex + ((0 : Nat) : Int)) %
        ((getCurrentPlaylist s).length : Int)
      simp [Int.emod_eq_of_lt hge hlt]
    · show s.currentSong = (getCurrentPlaylist s).get?
        (((s.currentIndex + ((0 : Nat) : Int)) %
          ((getCurrentPlaylist s).length : Int)).toNat)
      simpa [Int.emod_eq_of_lt hge hlt] using hsong
  | succ k ih =>
    intro s h3 hge hlt hsong
    have hL0 : 0 < ((getCurrentPlaylist s).length : Int) := by omega
    have hstep := playNext_step s h3 hge hlt
    have hpl2 : getCurrentPlaylist (playNext s) = getCurrentPlaylist s :=
      getCurrentPlaylist_playNext s
    have h3' : (playNext s).shuffled.length = (playNext s).songs.length := by
      obtain ⟨ha, hb, _⟩ := playNext_frame s
      rw [ha, hb]; exact h3
    have hn := nextIdx_mod s hge hlt
    have hidx2 : (playNext s).currentIndex =
        (s.currentIndex + 1) % ((getCurrentPlaylist s).length : Int) := by
      rw [hstep]; exact hn
    have hge2 : 0 ≤ (playNext s).currentIndex := by
      rw [hidx2]; exact Int.emod_nonneg _ (by omega)
    have hlt2 : (playNext s).currentIndex <
        ((getCurrentPlaylist (playNext s)).length : Int) := by
      rw [hidx2, hpl2]; exact Int.emod_lt_of_pos _ hL0
    have hsong2 : (playNext s).currentSong =
        (getCurrentPlaylist (playNext s)).get? (playNext s).currentIndex.toNat := by
      rw [hpl2, hidx2, hstep]
      show (getCurrentPlaylist s).get? (nextIdx s).toNat = _
      rw [hn]
    obtain ⟨ihpl, ih3, ihidx, ihsong⟩ := ih (playNext s) h3' hge2 hlt2 hsong2
    have hcast : (playNext s).currentIndex + (k : Int) =
        (s.currentIndex + 1) % ((getCurrentPlaylist s).length : Int) + (k : Int) := by
      rw [hidx2]
    refine ⟨?_, ih3, ?_, ?_⟩
    · show getCurrentPlaylist (playNextIter k (playNext s)) = getCurrentPlaylist s
      rw [ihpl, hpl2]
    · show (playNextIter k (playNext s)).currentIndex = _
      rw [ihidx, hcast, hpl2, Int.emod_add_emod]
      congr 1
      push_cast
      ring
    · show (playNextIter k (playNext s)).currentSong = _
      rw [ihsong, hcast, hpl2, Int.emod_add_emod]
      have harr : s.currentIndex + 1 + (k : Int) =
          s.currentIndex + ((k + 1 : Nat) : Int) := by
        push_cast
        ring
      rw [harr]

/-- C4: on a non-empty active sequence of length N with current index in
[0, N), playNext moves to (i+1) mod N and the track at that position,
wrapping at the boundary (playNext never reads repeatMode); it is a no-op
when the list is empty; and N consecutive playNext calls return to the
starting track and index. -/
theorem C4_playNext_claim (s : PlayerState) (N : Nat)
    (hlen : s.shuffled.length = s.songs.length)
    (hN : (getCurrentPlaylist s).length = N) :
    (s.songs = [] → playNext s = s) ∧
    (0 ≤ s.currentIndex → s.currentIndex < (N : Int) →
      (playNext s).currentIndex = (s.currentIndex + 1) % (N : Int) ∧
      (playNext s).currentSong =
        (getCurrentPlaylist s).get? ((s.currentIndex + 1) % (N : Int)).toNat ∧
      (playNext s).isPlaying = true) ∧
    (0 ≤ s.currentIndex → s.currentIndex < (N : Int) →
      s.currentSong = (getCurrentPlaylist s).get? s.currentIndex.toNat →
      (playNextIter N s).currentSong = s.currentSong ∧
      (playNextIter N s).currentIndex = s.currentIndex) := by
  subst hN
  refine ⟨?_, ?_, ?_⟩
  · intro hnil
    unfold playNext
    rw [if_pos (by rw [hnil]; rfl)]
  · intro hge hlt
    have hstep := playNext_step s hlen hge hlt
    have hn := nextIdx_mod s hge hlt
    rw [hstep]
    refine ⟨hn, ?_, rfl⟩
    show (getCurrentPlaylist s).get? (nextIdx s).toNat = _
    rw [hn]
  · intro hge hlt hsong
    obtain ⟨ihpl, ih3, ihidx, ihsong⟩ :=
      playNextIter_spec (getCurrentPlaylist s).length s hlen hge hlt hsong
    have hmod : (s.currentIndex + ((getCurrentPlaylist s).length : Int)) %
        ((getCurrentPlaylist s).length : Int) = s.currentIndex := by
      have h1 : s.currentIndex + ((getCurrentPlaylist s).length : Int) =
          s.currentIndex + ((getCurrentPlaylist s).length : Int) * 1 := by ring
      rw [h1, Int.add_mul_emod_self_left, Int.emod_eq_of_lt hge hlt]
    constructor
    · rw [ihsong, hmod, hsong]
    · rw [ihidx, hmod]

/-- A concrete controller state: base [A,B], shuffle off, playing A at index 0. -/
def c4state : PlayerState :=
  { songs := [songA, songB], shuffled := [songB, songA], currentSong := some songA,
    currentIndex := 0, isPlaying := true, isShuffle := false,
    repeatMode := RepeatMode.none, currentTime := 0, lastEnded := Option.none }

/-- Witness for C4 at the concrete state: one step reaches index 1 (track B),
and two steps return to A at index 0. -/
theorem C4_witness :
    ((playNext c4state).currentIndex = (c4state.currentIndex + 1) % ((2 : Nat) : Int) ∧
     (playNext c4state).currentSong =
       (getCurrentPlaylist c4state).get?
         ((c4state.currentIndex + 1) % ((2 : Nat) : Int)).toNat ∧
     (playNext c4state).isPlaying = true) ∧
    ((playNextIter 2 c4state).currentSong = c4state.currentSong ∧
     (playNextIter 2 c4state).currentIndex = c4state.currentIndex) :=
  ⟨(C4_playNext_claim c4state 2 (by decide) (by decide)).2.1 (by decide) (by decide),
   (C4_playNext_claim c4state 2 (by decide) (by decide)).2.2
     (by decide) (by decide) (by decide)⟩

theorem prevIdx_mod (s : PlayerState) (hge : 0 ≤ s.currentIndex)
    (hlt : s.currentIndex < ((getCurrentPlaylist s).length : Int)) :
    prevIdx s = (s.currentIndex - 1) % ((getCurrentPlaylist s).length : Int) := by
  unfold prevIdx
  split
  next h =>
    have hi : s.currentIndex = 0 := by omega
    rw [hi]
    have h2 : (0 - 1 : Int) % ((getCurrentPlaylist s).length : Int) =
        (((getCurrentPlaylist s).length : Int) - 1) %
          ((getCurrentPlaylist s).length : Int) := by
      have h3 : ((getCurrentPlaylist s).length : Int) - 1 =
          0 - 1 + ((getCurrentPlaylist s).length : Int) * 1 := by ring
      rw [h3, Int.add_mul_emod_self_left]
    rw [h2, Int.emod_eq_of_lt (by omega) (by omega)]
  next h =>
    rw [Int.emod_eq_of_lt (by omega) (by omega)]

theorem playPrevious_step (s : PlayerState)
    (hlen : s.shuffled.length = s.songs.length)
    (ht : ¬ 3 < s.currentTime)
    (hge : 0 ≤ s.currentIndex)
    (hlt : s.currentIndex < ((getCurrentPlaylist s).length : Int)) :
    playPreviousFull s =
      ({ s with currentIndex := prevIdx s,
                currentSong := (getCurrentPlaylist s).get? (prevIdx s).toNat,
                isPlaying := true }, []) := by
  have hL : 0 < (getCurrentPlaylist s).length := by omega
  have hs0 : ¬ s.songs.length = 0 := by
    rw [getCurrentPlaylist] at hL
    by_cases hsh : s.isShuffle
    · rw [if_pos hsh] at hL; omega
    · rw [if_neg hsh] at hL; omega
  have hp0 : 0 ≤ prevIdx s := by
    unfold prevIdx; split <;> omega
  have hpL : prevIdx s < ((getCurrentPlaylist s).length : Int) := by
    unfold prevIdx; split <;> omega
  have hbound : (prevIdx s).toNat < (getCurrentPlaylist s).length := by omega
  have hx := List.get?_eq_get hbound
  unfold playPreviousFull
  rw [if_neg hs0, if_neg ht]
  rw [if_neg (show ¬(prevIdx s < 0 ∨
      ((getCurrentPlaylist s).length : Int) ≤ prevIdx s) by push_neg; exact ⟨hp0, hpL⟩)]
  rw [hx]

/-- C6: on a non-empty active sequence, if playback is more than 3 seconds in,
playPrevious only seeks the engine to 0 (no state change at all); otherwise it
moves the index to (i-1) mod length, wrapping from 0 to the last track, and
selects the track at that position. -/
theorem C6_playPrevious_claim (s : PlayerState) (N : Nat)
    (hlen : s.shuffled.length = s.songs.length)
    (hN : (getCurrentPlaylist s).length = N) (hNpos : 0 < N) :
    (3 < s.currentTime → playPreviousFull s = (s, [EngineCmd.seek 0])) ∧
    (¬ 3 < s.currentTime → 0 ≤ s.currentIndex → s.currentIndex < (N : Int) →
      (playPreviousFull s).1.currentIndex = (s.currentIndex - 1) % (N : Int) ∧
      (playPreviousFull s).1.currentSong =
        (getCurrentPlaylist s).get? ((s.currentIndex - 1) % (N : Int)).toNat ∧
      (playPreviousFull s).1.isPlaying = true) := by
  subst hN
  have hs0 : ¬ s.songs.length = 0 := by
    rw [getCurrentPlaylist] at hNpos
    by_cases hsh : s.isShuffle
    · rw [if_pos hsh] at hNpos; omega
    · rw [if_neg hsh] at hNpos; omega
  constructor
  · intro ht
    unfold playPreviousFull
    rw [if_neg hs0, if_pos ht]
  · intro ht hge hlt
    have hstep := playPrevious_step s hlen ht hge hlt
    have hp := prevIdx_mod s hge hlt
    rw [hstep]
    refine ⟨hp, ?_, rfl⟩
    show (getCurrentPlaylist s).get? (prevIdx s).toNat = _
    rw [hp]

/-- The concrete state, 5 seconds into track B. -/
def c6fast : PlayerState :=
  { c4state with currentTime := 5, currentIndex := 1, currentSong := some songB }

/-- The concrete state, 1 second into track B. -/
def c6slow : PlayerState :=
  { c4state with currentTime := 1, currentIndex := 1, currentSong := some songB }

/-- Witness for C6: at 5 s playPrevious restarts B (seek 0, no state change);
at 1 s it moves back to index 0 (track A). -/
theorem C6_witness :
    playPreviousFull c6fast = (c6fast, [EngineCmd.seek 0]) ∧
    ((playPreviousFull c6slow).1.currentIndex =
        (c6slow.currentIndex - 1) % ((2 : Nat) : Int) ∧
     (playPreviousFull c6slow).1.currentSong =
        (getCurrentPlaylist c6slow).get?
          ((c6slow.currentIndex - 1) % ((2 : Nat) : Int)).toNat ∧
     (playPreviousFull c6slow).1.isPlaying = true) :=
  ⟨(C6_playPrevious_claim c6fast 2 (by decide) (by decide) (by decide)).1 (by decide),
   (C6_playPrevious_claim c6slow 2 (by decide) (by decide) (by decide)).2
     (by decide) (by decide) (by decide)⟩

/-- C7: when a track-ended notification passes the debounce, repeat-one seeks
to 0 and resumes play with no index or track change; any other repeat mode
invokes playNext; and an ended signal within 1 second of the previously
handled one (positive timestamp) is ignored with no state change. -/
theorem C7_handleSongEnd_claim (s : PlayerState) (now : Rat) :
    (endDebounced now s = false → s.repeatMode = RepeatMode.one →
      (handleSongEndFull now s).1.currentIndex = s.currentIndex ∧
      (handleSongEndFull now s).1.currentSong = s.currentSong ∧
      (handleSongEndFull now s).2 = [EngineCmd.seek 0, EngineCmd.play]) ∧
    (endDebounced now s = false → s.repeatMode ≠ RepeatMode.one →
      handleSongEndFull now s = (playNext { s with lastEnded := some now }, [])) ∧
    (∀ last, s.lastEnded = some last → 0 < last → now - last < 1000 →
      handleSongEndFull now s = (s, [])) := by
  refine ⟨?_, ?_, ?_⟩
  · intro hdb hrep
    simp [handleSongEndFull, handleSongEndGo, hdb, hrep]
  · intro hdb hrep
    simp [handleSongEndFull, handleSongEndGo, hdb, hrep]
  · intro last hl h0 hdt
    have hne : last ≠ 0 := by
      intro h
      rw [h] at h0
      exact lt_irrefl 0 h0
    have hdb : endDebounced now s = true := by
      unfold endDebounced
      rw [hl]
      simp [hne, hdt]
    simp [handleSongEndFull, hdb]

/-- The concrete state with repeat mode one. -/
def c7repeat : PlayerState := { c4state with repeatMode := RepeatMode.one }

/-- The concrete state with an end handled at t = 100 ms. -/
def c7deb : PlayerState := { c4state with lastEnded := some 100 }

/-- Witness for C7: repeat-one repeats in place; repeat-none advances via
playNext; a second ended signal 400 ms later is ignored. -/
theorem C7_witness :
    ((handleSongEndFull 2000 c7repeat).1.currentIndex = c7repeat.currentIndex ∧
     (handleSongEndFull 2000 c7repeat).1.currentSong = c7repeat.currentSong ∧
     (handleSongEndFull 2000 c7repeat).2 = [EngineCmd.seek 0, EngineCmd.play]) ∧
    handleSongEndFull 2000 c4state =
      (playNext { c4state with lastEnded := some 2000 }, []) ∧
    handleSongEndFull 500 c7deb = (c7deb, []) :=
  ⟨(C7_handleSongEnd_claim c7repeat 2000).1 (by decide) (by decide),
   (C7_handleSongEnd_claim c4state 2000).2.1 (by decide) (by decide),
   (C7_handleSongEnd_claim c7deb 500).2.2 100 rfl (by norm_num) (by norm_num)⟩

theorem toggleShuffle_currentSong (cs : List Nat) (s : PlayerState) :
    (toggleShuffle cs s).currentSong = s.currentSong := by
  unfold toggleShuffle
  split <;> split <;> rfl

/-- C9: toggling shuffle twice leaves currentTrack unchanged (toggleShuffle
never writes currentSong); turning shuffle on relocates currentIndex to the
current track's position (by id) in the freshly shuffled order, and turning
it off relocates it to the track's position in the base order. -/
theorem C9_toggleShuffle_claim (s : PlayerState) (t : Song) (c1 c2 : List Nat)
    (hcs : s.currentSong = some t) :
    (toggleShuffle c2 (toggleShuffle c1 s)).currentSong = s.currentSong ∧
    (s.isShuffle = false →
      (toggleShuffle c1 s).isShuffle = true ∧
      (toggleShuffle c1 s).shuffled = fisherYates s.songs c1 ∧
      (toggleShuffle c1 s).currentIndex = findIndexId t (fisherYates s.songs c1)) ∧
    (s.isShuffle = true →
      (toggleShuffle c1 s).isShuffle = false ∧
      (toggleShuffle c1 s).currentIndex = findIndexId t s.songs) := by
  refine ⟨?_, ?_, ?_⟩
  · rw [toggleShuffle_currentSong, toggleShuffle_currentSong]
  · intro hsh
    simp [toggleShuffle, hsh, hcs]
  · intro hsh
    simp [toggleShuffle, hsh, hcs]

/-- Witness for C9 at the concrete state: shuffle on relocates A to its
position in [B,A]; toggling twice keeps currentTrack = A. -/
theorem C9_witness :
    (toggleShuffle [0] (toggleShuffle [0] c4state)).currentSong = c4state.currentSong ∧
    ((toggleShuffle [0] c4state).isShuffle = true ∧
     (toggleShuffle [0] c4state).shuffled = fisherYates c4state.songs [0] ∧
     (toggleShuffle [0] c4state).currentIndex =
       findIndexId songA (fisherYates c4state.songs [0])) :=
  ⟨(C9_toggleShuffle_claim c4state songA [0] [0] (by decide)).1,
   (C9_toggleShuffle_claim c4state songA [0] [0] (by decide)).2.1 (by decide)⟩

theorem mapGet_any (m : List (Int × Song)) (k : Int) (s : Song)
    (h : mapGet m k = some s) : m.any (fun p => p.1 == k) = true := by
  unfold mapGet at h
  cases hf : m.find? (fun p => p.1 == k) with
  | none => rw [hf] at h; cases h
  | some p =>
    have hpred := List.find?_some hf
    have hmem := List.mem_of_find?_eq_some hf
    exact List.any_eq_true.mpr ⟨p, hmem, hpred⟩

theorem mapGet_mapDelete (m : List (Int × Song)) (k : Int) :
    mapGet (mapDelete m k) k = Option.none := by
  unfold mapGet mapDelete
  cases hf : (m.filter (fun p => p.1 != k)).find? (fun p => p.1 == k) with
  | none => rfl
  | some p =>
    have h1 := List.find?_some hf
    have h2 := List.mem_of_find?_eq_some hf
    have h3 := List.of_mem_filter h2
    simp at h1 h3
    exact absurd h1 h3

theorem mapSet_keys (m : List (Int × Song)) (k : Int) (v : Song) :
    (m.map (fun p => if p.1 == k then (k, v) else p)).map Prod.fst =
      m.map Prod.fst := by
  induction m with
  | nil => rfl
  | cons p rest ih =>
    simp only [List.map_cons]
    rw [ih]
    congr 1
    by_cases h : (p.1 == k) = true
    · have he : p.1 = k := eq_of_beq h
      rw [if_pos h]
      exact he.symm
    · rw [if_neg h]

theorem deleteSong_absent (st : Store) (fileset : List String) (id : Int)
    (h : mapGet st.songs id = Option.none) :
    deleteSong id st fileset = (false, st, fileset) := by
  simp [deleteSong, h]

/-- C5: deleteSong on an absent id returns false and changes nothing, so a
second delete of the same id after a successful one fails without
double-removing; on a present id the record is removed and the result flag is
true even when the backing file is absent from disk, and the sidecar is
rewritten from the new store. -/
theorem C5_delete_claim (st : Store) (fileset : List String) (id : Int) :
    (mapGet st.songs id = Option.none →
      deleteSong id st fileset = (false, st, fileset)) ∧
    (∀ song, mapGet st.songs id = some song →
      (deleteSong id st fileset).1 = true ∧
      (deleteSong id st fileset).2.1.songs = mapDelete st.songs id ∧
      (deleteSong id st fileset).2.1.currentId = st.currentId ∧
      (song.path ∉ fileset → (deleteSong id st fileset).2.2 = fileset) ∧
      mapGet (deleteSong id st fileset).2.1.songs id = Option.none ∧
      deleteSong id (deleteSong id st fileset).2.1 (deleteSong id st fileset).2.2 =
        (false, (deleteSong id st fileset).2.1, (deleteSong id st fileset).2.2)) ∧
    (∀ (w : World) (song : Song), mapGet w.store.songs id = some song →
      (applyOp w (StoreOp.delete id)).1.sidecar =
        some (saveMetadata (applyOp w (StoreOp.delete id)).1.store)) := by
  refine ⟨?_, ?_, ?_⟩
  · intro h
    exact deleteSong_absent st fileset id h
  · intro song h
    refine ⟨?_, ?_, ?_, ?_, ?_, ?_⟩
    · simp only [deleteSong, h]
      exact mapGet_any st.songs id song h
    · simp [deleteSong, h]
    · simp [deleteSong, h]
    · intro hnp
      simp [deleteSong, h, hnp]
    · simp only [deleteSong, h]
      exact mapGet_mapDelete st.songs id
    · have hnone : mapGet (deleteSong id st fileset).2.1.songs id = Option.none := by
        simp only [deleteSong, h]
        exact mapGet_mapDelete st.songs id
      exact deleteSong_absent (deleteSong id st fileset).2.1
        (deleteSong id st fileset).2.2 id hnone
  · intro w song h
    have h1 : (deleteSong id w.store w.files).1 = true := by
      simp only [deleteSong, h]
      exact mapGet_any w.store.songs id song h
    simp [applyOp, applyDelete, h1]

/-- A concrete store holding only track A under id 1. -/
def c5store : Store := { songs := [(1, songA)], currentId := 2 }

/-- Witness for C5: deleting id 7 fails and changes nothing; deleting id 1
succeeds (no backing file on disk), and deleting id 1 again fails. -/
theorem C5_witness :
    deleteSong 7 c5store [] = (false, c5store, []) ∧
    (deleteSong 1 c5store []).1 = true ∧
    deleteSong 1 (deleteSong 1 c5store []).2.1 (deleteSong 1 c5store []).2.2 =
      (false, (deleteSong 1 c5store []).2.1, (deleteSong 1 c5store []).2.2) :=
  ⟨(C5_delete_claim c5store [] 7).1 (by decide),
   ((C5_delete_claim c5store [] 1).2.1 songA (by decide)).1,
   ((C5_delete_claim c5store [] 1).2.1 songA (by decide)).2.2.2.2.2⟩

/-- C8: rename on an absent id returns NotFound and leaves the store
unchanged; on a present id it returns the updated record with the new title
and the prior id, duration, format, path and filename, keeps the prior artist
when the artist is omitted (or empty, per the || fallback), updates the entry
in place so the key order of listAll is unchanged, and leaves the counter
alone. -/
def renamedStore (st : Store) (id : Int) (u : Song) : Store :=
  { st with songs := st.songs.map (fun p => if p.1 == id then (id, u) else p) }

theorem C8_rename_claim (st : Store) (id : Int) (title : String)
    (artist : Option String) :
    (mapGet st.songs id = Option.none →
      renameSong id title artist st = (Option.none, st)) ∧
    (∀ s0, mapGet st.songs id = some s0 →
      ∃ u, renameSong id title artist st = (some u, renamedStore st id u) ∧
        u.title = title ∧ u.id = s0.id ∧ u.duration = s0.duration ∧
        u.format = s0.format ∧ u.path = s0.path ∧ u.filename = s0.filename ∧
        (artist = Option.none → u.artist = s0.artist) ∧
        (∀ a, artist = some a → a ≠ "" → u.artist = a) ∧
        (renameSong id title artist st).2.songs.map Prod.fst =
          st.songs.map Prod.fst ∧
        (renameSong id title artist st).2.currentId = st.currentId) := by
  constructor
  · intro h
    simp [renameSong, h]
  · intro s0 h
    have hany := mapGet_any st.songs id s0 h
    have hset : mapSet st.songs id
        { s0 with title := title, artist := jsOrStr artist s0.artist } =
        st.songs.map (fun p => if p.1 == id then
          (id, { s0 with title := title, artist := jsOrStr artist s0.artist }) else p) := by
      unfold mapSet
      rw [hany]
      simp
    refine ⟨{ s0 with title := title, artist := jsOrStr artist s0.artist },
      ?_, rfl, rfl, rfl, rfl, rfl, rfl, ?_, ?_, ?_, ?_⟩
    · simp only [renameSong, h, renamedStore, hset]
    · intro ha
      rw [ha]
      rfl
    · intro a ha hne
      rw [ha]
      show (if a = "" then s0.artist else a) = a
      rw [if_neg hne]
    · simp only [renameSong, h, hset]
      exact mapSet_keys st.songs id _
    · simp [renameSong, h]

/-- Witness for C8: renaming absent id 7 fails and leaves the store alone;
renaming id 1 with no artist yields the retitled record at the same key
position with all other fields kept. -/
theorem C8_witness :
    renameSong 7 "T" Option.none c5store = (Option.none, c5store) ∧
    ∃ u, renameSong 1 "T" Option.none c5store = (some u, renamedStore c5store 1 u) ∧
      u.title = "T" ∧ u.id = songA.id ∧ u.duration = songA.duration ∧
      u.format = songA.format ∧ u.path = songA.path ∧ u.filename = songA.filename ∧
      (Option.none = (Option.none : Option String) → u.artist = songA.artist) ∧
      (∀ a, (Option.none : Option String) = some a → a ≠ "" → u.artist = a) ∧
      (renameSong 1 "T" Option.none c5store).2.songs.map Prod.fst =
        c5store.songs.map Prod.fst ∧
      (renameSong 1 "T" Option.none c5store).2.currentId = c5store.currentId :=
  ⟨(C8_rename_claim c5store 7 "T" Option.none).1 (by decide),
   (C8_rename_claim c5store 1 "T" Option.none).2 songA (by decide)⟩

/-- C10: renameSong with an empty-string artist behaves exactly like an
omitted artist — the stored record keeps its prior artist, because
`input.artist || song.artist` treats the empty string as falsy. -/
theorem C10_rename_empty_artist (st : Store) (id : Int) (title : String)
    (s0 : Song) (h : mapGet st.songs id = some s0) :
    ∃ u, (renameSong id title (some "") st).1 = some u ∧ u.artist = s0.artist := by
  simp only [renameSong, h]
  exact ⟨_, rfl, rfl⟩

/-- Witness for C10 on the concrete store. -/
theorem C10_witness :
    ∃ u, (renameSong 1 "T" (some "") c5store).1 = some u ∧
      u.artist = songA.artist :=
  C10_rename_empty_artist c5store 1 "T" songA (by decide)

theorem load_foldl (fileset : List String) (l : List Song) :
    ∀ (acc : List (Int × Song)),
    (l.map Song.id).Nodup →
    (∀ s ∈ l, ∀ p ∈ acc, p.1 ≠ s.id) →
    List.foldl (fun m s => if s.path ∈ fileset then mapSet m s.id s else m) acc l =
      acc ++ (l.filter (fun s => decide (s.path ∈ fileset))).map
        (fun s => (s.id, s)) := by
  induction l with
  | nil =>
    intro acc _ _
    simp
  | cons x xs ih =>
    intro acc hnd hdisj
    have hnd2 : (xs.map Song.id).Nodup := by
      simp only [List.map_cons, List.nodup_cons] at hnd
      exact hnd.2
    have hhead : x.id ∉ xs.map Song.id := by
      simp only [List.map_cons, List.nodup_cons] at hnd
      exact hnd.1
    simp only [List.foldl_cons]
    by_cases hp : x.path ∈ fileset
    · have hany : acc.any (fun p => p.1 == x.id) = false := by
        rw [List.any_eq_false]
        intro p hpmem hb
        exact hdisj x (List.mem_cons_self x xs) p hpmem (eq_of_beq hb)
      have hset : mapSet acc x.id x = acc ++ [(x.id, x)] := by
        unfold mapSet
        rw [hany]
        simp
      have hdisj2 : ∀ s ∈ xs, ∀ p ∈ acc ++ [(x.id, x)], p.1 ≠ s.id := by
        intro s hs p hpm
        rcases List.mem_append.mp hpm with hin | hin
        · exact hdisj s (List.mem_cons_of_mem _ hs) p hin
        · have hpx : p = (x.id, x) := by simpa using hin
          rw [hpx]
          intro hcontra
          apply hhead
          have hcontra2 : x.id = s.id := hcontra
          rw [hcontra2]
          exact List.mem_map_of_mem Song.id hs
      rw [if_pos hp, hset, ih (acc ++ [(x.id, x)]) hnd2 hdisj2]
      rw [List.filter_cons_of_pos (by simp [hp]), List.map_cons, List.append_assoc]
      rfl
    · rw [if_neg hp,
        ih acc hnd2 (fun s hs p hpm => hdisj s (List.mem_cons_of_mem _ hs) p hpm)]
      rw [List.filter_cons_of_neg (by simp [hp])]

theorem filter_vals (fileset : List String) (m : List (Int × Song)) :
    (∀ p ∈ m, p.2.id = p.1) →
    ((m.map Prod.snd).filter (fun s => decide (s.path ∈ fileset))).map
        (fun s => (s.id, s)) =
      m.filter (fun p => decide (p.2.path ∈ fileset)) := by
  induction m with
  | nil => intro _; rfl
  | cons p rest ih =>
    intro hids
    have hid : p.2.id = p.1 := hids p (List.mem_cons_self _ _)
    have hrest : ∀ q ∈ rest, q.2.id = q.1 :=
      fun q hq => hids q (List.mem_cons_of_mem _ hq)
    simp only [List.map_cons]
    by_cases hp : p.2.path ∈ fileset
    · rw [List.filter_cons_of_pos (by simp [hp]),
        List.filter_cons_of_pos (by simp [hp]), List.map_cons, ih hrest]
      congr 1
      exact Prod.ext hid rfl
    · rw [List.filter_cons_of_neg (by simp [hp]),
        List.filter_cons_of_neg (by simp [hp])]
      exact ih hrest

/-- C3: writing the sidecar and loading it into a fresh store keeps exactly
the records whose backing file still exists, in order, and takes the counter
from the persisted nextId. -/
theorem C3_roundTrip (st : Store) (fileset : List String)
    (hkeys : (st.songs.map Prod.fst).Nodup)
    (hids : ∀ p ∈ st.songs, p.2.id = p.1) :
    loadSavedMetadata (saveMetadata st) fileset =
      { songs := st.songs.filter (fun p => decide (p.2.path ∈ fileset)),
        currentId := st.currentId } := by
  have hvals : ((st.songs.map Prod.snd).map Song.id).Nodup := by
    have hcomp : (st.songs.map Prod.snd).map Song.id = st.songs.map Prod.fst := by
      rw [List.map_map]
      exact List.map_congr_left hids
    rw [hcomp]
    exact hkeys
  have hload := load_foldl fileset (st.songs.map Prod.snd) [] hvals
    (by intro s _ p hp; cases hp)
  have hsongs : List.foldl
      (fun m s => if s.path ∈ fileset then mapSet m s.id s else m) []
      (st.songs.map Prod.snd) =
      st.songs.filter (fun p => decide (p.2.path ∈ fileset)) := by
    rw [hload, List.nil_append]
    exact filter_vals fileset st.songs hids
  show Store.mk _ _ = Store.mk _ _
  simp only [saveMetadata]
  rw [hsongs]

/-- A concrete two-record store for the round-trip witness. -/
def c3store : Store := { songs := [(1, songA), (2, songB)], currentId := 5 }

/-- Witness for C3: with only A's backing file on disk, the reload keeps
exactly A's record and the persisted counter 5. -/
theorem C3_witness :
    loadSavedMetadata (saveMetadata c3store) ["/u/a.mp3"] =
      { songs := c3store.songs.filter
          (fun p => decide (p.2.path ∈ ["/u/a.mp3"])),
        currentId := c3store.currentId } :=
  C3_roundTrip c3store ["/u/a.mp3"] (by decide) (by decide)

theorem renameSong_currentId (id : Int) (title : String) (artist : Option String)
    (st : Store) : (renameSong id title artist st).2.currentId = st.currentId := by
  unfold renameSong
  split <;> rfl

theorem deleteSong_currentId (id : Int) (st : Store) (fileset : List String) :
    (deleteSong id st fileset).2.1.currentId = st.currentId := by
  unfold deleteSong
  split <;> rfl

/-- The agreement between the persisted sidecar counter and the live counter
that every run from a fresh world maintains. -/
def WorldInv (w : World) : Prop :=
  match w.sidecar with
  | some sc => sc.nextId = w.store.currentId
  | Option.none => w.store.currentId = 1

theorem applyOp_spec (w : World) (op : StoreOp) (h : WorldInv w) :
    WorldInv (applyOp w op).1 ∧
    w.store.currentId ≤ (applyOp w op).1.store.currentId ∧
    (∀ i, (applyOp w op).2 = some i →
      i = w.store.currentId ∧ (applyOp w op).1.store.currentId = i + 1) := by
  cases op with
  | create d =>
    refine ⟨?_, ?_, ?_⟩
    · show (saveMetadata (createSong d w.store).2).nextId =
        (createSong d w.store).2.currentId
      rfl
    · show w.store.currentId ≤ (createSong d w.store).2.currentId
      show w.store.currentId ≤ w.store.currentId + 1
      omega
    · intro i hi
      have hi2 : (createSong d w.store).1.id = i := by
        have hsome : some (createSong d w.store).1.id = some i := hi
        exact Option.some.inj hsome
      constructor
      · rw [← hi2]; rfl
      · rw [← hi2]; rfl
  | rename id t a =>
    show WorldInv (applyRename w id t a).1 ∧
      w.store.currentId ≤ (applyRename w id t a).1.store.currentId ∧
      (∀ i, (applyRename w id t a).2 = some i →
        i = w.store.currentId ∧ (applyRename w id t a).1.store.currentId = i + 1)
    unfold applyRename
    split
    next heq =>
      refine ⟨?_, ?_, ?_⟩
      · show (saveMetadata (renameSong id t a w.store).2).nextId =
          (renameSong id t a w.store).2.currentId
        rfl
      · show w.store.currentId ≤ (renameSong id t a w.store).2.currentId
        rw [renameSong_currentId]
      · intro i hi
        cases hi
    next heq =>
      exact ⟨h, le_refl _, fun i hi => by cases hi⟩
  | delete id =>
    show WorldInv (applyDelete w id).1 ∧
      w.store.currentId ≤ (applyDelete w id).1.store.currentId ∧
      (∀ i, (applyDelete w id).2 = some i →
        i = w.store.currentId ∧ (applyDelete w id).1.store.currentId = i + 1)
    unfold applyDelete
    split
    next heq =>
      refine ⟨?_, ?_, ?_⟩
      · show (saveMetadata (deleteSong id w.store w.files).2.1).nextId =
          (deleteSong id w.store w.files).2.1.currentId
        rfl
      · show w.store.currentId ≤ (deleteSong id w.store w.files).2.1.currentId
        rw [deleteSong_currentId]
      · intro i hi
        cases hi
    next heq =>
      exact ⟨h, le_refl _, fun i hi => by cases hi⟩
  | reload =>
    show WorldInv (applyReload w).1 ∧
      w.store.currentId ≤ (applyReload w).1.store.currentId ∧
      (∀ i, (applyReload w).2 = some i →
        i = w.store.currentId ∧ (applyReload w).1.store.currentId = i + 1)
    unfold applyReload
    cases hsc : w.sidecar with
    | none =>
      have h1 : w.store.currentId = 1 := by
        unfold WorldInv at h
        rw [hsc] at h
        exact h
      refine ⟨?_, ?_, fun i hi => by cases hi⟩
      · show freshStore.currentId = 1
        rfl
      · show w.store.currentId ≤ freshStore.currentId
        rw [h1]
        exact le_refl _
    | some sc =>
      have h1 : sc.nextId = w.store.currentId := by
        unfold WorldInv at h
        rw [hsc] at h
        exact h
      refine ⟨?_, ?_, fun i hi => by cases hi⟩
      · show sc.nextId = (loadSavedMetadata sc w.files).currentId
        rfl
      · show w.store.currentId ≤ (loadSavedMetadata sc w.files).currentId
        show w.store.currentId ≤ sc.nextId
        rw [h1]

theorem runW_fst (w : World) (op : StoreOp) (rest : List StoreOp) :
    (runW w (op :: rest)).1 = (runW (applyOp w op).1 rest).1 := rfl

theorem runW_snd_none (w : World) (op : StoreOp) (rest : List StoreOp)
    (hio : (applyOp w op).2 = Option.none) :
    (runW w (op :: rest)).2 = (runW (applyOp w op).1 rest).2 := by
  show (match (applyOp w op).2 with
        | some i => [i]
        | Option.none => []) ++ (runW (applyOp w op).1 rest).2 = _
  rw [hio]
  rfl

theorem runW_snd_some (w : World) (op : StoreOp) (rest : List StoreOp) (i : Int)
    (hio : (applyOp w op).2 = some i) :
    (runW w (op :: rest)).2 = i :: (runW (applyOp w op).1 rest).2 := by
  show (match (applyOp w op).2 with
        | some i => [i]
        | Option.none => []) ++ (runW (applyOp w op).1 rest).2 = _
  rw [hio]
  rfl

theorem runW_spec (ops : List StoreOp) : ∀ (w : World), WorldInv w →
    List.Pairwise (fun a b => a < b) (runW w ops).2 ∧
    (∀ x ∈ (runW w ops).2,
      w.store.currentId ≤ x ∧ x < (runW w ops).1.store.currentId) ∧
    WorldInv (runW w ops).1 ∧
    w.store.currentId ≤ (runW w ops).1.store.currentId := by
  induction ops with
  | nil =>
    intro w h
    refine ⟨List.Pairwise.nil, ?_, h, le_refl _⟩
    intro x hx
    simp [runW] at hx
  | cons op rest ih =>
    intro w h
    obtain ⟨ha1, ha2, ha3⟩ := applyOp_spec w op h
    obtain ⟨hp, hb, hinv, hmono⟩ := ih (applyOp w op).1 ha1
    cases hio : (applyOp w op).2 with
    | none =>
      rw [runW_fst, runW_snd_none w op rest hio]
      refine ⟨hp, ?_, hinv, le_trans ha2 hmono⟩
      intro x hx
      obtain ⟨hx1, hx2⟩ := hb x hx
      exact ⟨le_trans ha2 hx1, hx2⟩
    | some i =>
      obtain ⟨hieq, hinc⟩ := ha3 i hio
      rw [runW_fst, runW_snd_some w op rest i hio]
      refine ⟨?_, ?_, hinv, le_trans ha2 hmono⟩
      · refine List.Pairwise.cons ?_ hp
        intro y hy
        obtain ⟨hy1, _⟩ := hb y hy
        omega
      · intro x hx
        rcases List.mem_cons.mp hx with hx1 | hx2
        · subst hx1
          refine ⟨le_of_eq hieq.symm, ?_⟩
          omega
        · obtain ⟨hx3, hx4⟩ := hb x hx2
          exact ⟨le_trans ha2 hx3, hx4⟩

/-- C2: along every sequence of create/rename/delete/reload operations from a
fresh world, the ids issued by create are strictly increasing in issue order
(hence unique and never reused, even across deletes and a persist-and-reload);
and a loaded store takes its counter from the persisted nextId, not from the
maximum surviving record id. -/
theorem C2_ids_claim :
    (∀ ops : List StoreOp,
      List.Pairwise (fun a b => a < b) (runW world0 ops).2) ∧
    (∀ (sc : Sidecar) (fileset : List String),
      (loadSavedMetadata sc fileset).currentId = sc.nextId) ∧
    (loadSavedMetadata { songs := [], nextId := 7 } []).currentId = 7 := by
  refine ⟨?_, fun sc fileset => rfl, rfl⟩
  intro ops
  have hw0 : WorldInv world0 := by
    unfold WorldInv world0
    rfl
  exact (runW_spec ops world0 hw0).1
